import Mathlib

/-!
Shallow embedding of the B2 storage adapter (`duplicacy_b2storage.go`).

Strings are modelled as lists of characters; the external versioned-object
client (`B2Client`) is out of scope of the adapter and is passed to every
operation as oracle functions.  Each adapter operation additionally returns
the trace of client calls it issued (hide calls, delete calls, rate limits
passed), so that theorems can speak about which versions get deleted and
which rate limits are used.
-/

set_option maxHeartbeats 1000000

namespace B2

/-- Logical strings (the adapter's path names and action tags), modelled as
lists of characters. -/
abbrev Str := List Char

/-- One entry of a `ListFileNames` response, as the adapter consumes it:
`FileName`, `FileID` (version identifier), `Action` (`"hide"` marks a hide
marker) and `Size`. -/
structure B2Entry where
  FileName : Str
  FileID : Str
  Action : Str
  Size : Int
deriving DecidableEq, Repr

/-- The `"hide"` action string. -/
def hideAction : Str := ['h', 'i', 'd', 'e']

/-- The `".fsl"` fossil suffix. -/
def fslSuffix : Str := ['.', 'f', 's', 'l']

/-- The `"chunks"` directory name. -/
def chunksDir : Str := ['c', 'h', 'u', 'n', 'k', 's']

/-- The `"snapshots"` directory name. -/
def snapshotsDir : Str := ['s', 'n', 'a', 'p', 's', 'h', 'o', 't', 's']

/-- Go `strings.HasSuffix s suffix`. -/
def hasSuffix (s suffix : Str) : Bool :=
  decide (suffix.length ≤ s.length) && (s.drop (s.length - suffix.length) == suffix)

/-- The loop at the top of `ListFiles` (lines 43-45) stripping trailing
slashes from `dir`. -/
def stripTrailingSlashes (s : Str) : Str :=
  (s.reverse.dropWhile (fun c => c == '/')).reverse

/-- Oracle for `client.ListFileNames(threadIndex, prefix, singleFile,
includeVersions)`. -/
abbrev ListFn := Str → Bool → Bool → Except String (List B2Entry)

/-- Oracle for `client.DeleteFile(threadIndex, name, fileID)`; `none` means
success. -/
abbrev DelFn := Str → Str → Option String

/-- Oracle for `client.HideFile(threadIndex, name)`; returns the new hide
marker's version ID. -/
abbrev HideFn := Str → Except String Str

/-- The name emitted for one retained entry on the `chunks` branch of
`ListFiles` (lines 78-82): hide markers get the `.fsl` suffix appended to the
prefix-stripped name. -/
def chunkEmit (length : Nat) (e : B2Entry) : Str :=
  if e.Action == hideAction then e.FileName.drop length ++ fslSuffix
  else e.FileName.drop length

/-- The `chunks` loop of `ListFiles` (lines 72-84); `lastFile` starts out as
the empty string. -/
def chunksList (length : Nat) (lastFile : Str) : List B2Entry → List Str × List Int
  | [] => ([], [])
  | e :: rest =>
    if e.FileName == lastFile then chunksList length lastFile rest
    else
      let r := chunksList length e.FileName rest
      (chunkEmit length e :: r.1, e.Size :: r.2)

/-- First path segment (the part before the first `/`) of an entry's
prefix-stripped name, with a trailing slash, as built on the `snapshots`
branch (lines 63-65, `strings.Split(name, "/")[0] + "/"`). -/
def snapshotSeg (length : Nat) (e : B2Entry) : Str :=
  ((e.FileName.drop length).takeWhile (fun c => !(c == '/'))) ++ ['/']

/-- The `snapshots` branch of `ListFiles` (lines 58-70): the deduplicated
sub-directory names.  The Go code collects them in a set (`map[string]bool`)
whose iteration order is unspecified; the embedding keeps first-occurrence
order, and theorems about this branch are stated in set terms. -/
def snapshotSubDirs (length : Nat) (entries : List B2Entry) : List Str :=
  entries.foldl
    (fun acc e =>
      if (snapshotSeg length e) ∈ acc then acc else acc ++ [snapshotSeg length e])
    []

/-- `B2Storage.ListFiles` (lines 42-92), with the client's `ListFileNames`
passed as an oracle. -/
def ListFiles (listFn : ListFn) (dir : Str) : Except String (List Str × List Int) :=
  let dir := stripTrailingSlashes dir
  let length := dir.length + 1
  let includeVersions := dir == chunksDir
  match listFn dir false includeVersions with
  | .error e => .error e
  | .ok entries =>
    if dir == snapshotsDir then .ok (snapshotSubDirs length entries, [])
    else if dir == chunksDir then .ok (chunksList length [] entries)
    else .ok (entries.map (fun e => e.FileName.drop length), [])

/-- The fossil-chain loop of `DeleteFile` (lines 104-117).  Returns the
adapter's error result together with the list of
`client.DeleteFile(name, fileID)` calls issued, in order. -/
def fossilDeleteLoop (delFn : DelFn) (filePath : Str) (toBeDeleted : Bool) :
    List B2Entry → Option String × List (Str × Str)
  | [] => (none, [])
  | e :: rest =>
    if e.FileName != filePath || (!toBeDeleted && e.Action != hideAction) then
      fossilDeleteLoop delFn filePath toBeDeleted rest
    else
      match delFn filePath e.FileID with
      | some err => (some err, [(filePath, e.FileID)])
      | none =>
        let r := fossilDeleteLoop delFn filePath true rest
        (r.1, (filePath, e.FileID) :: r.2)

/-- `B2Storage.DeleteFile` (lines 95-132): the returned error together with
the list of `client.DeleteFile` calls issued.  On the fossil branch the
`.fsl` suffix is stripped (`filePath[:len(filePath)-len(".fsl")]`). -/
def DeleteFile (listFn : ListFn) (delFn : DelFn) (filePath : Str) :
    Option String × List (Str × Str) :=
  if hasSuffix filePath fslSuffix then
    let bare := filePath.take (filePath.length - fslSuffix.length)
    match listFn bare true true with
    | .error e => (some e, [])
    | .ok entries => fossilDeleteLoop delFn bare false entries
  else
    match listFn filePath true false with
    | .error e => (some e, [])
    | .ok entries =>
      match entries with
      | [] => (none, [])
      | e0 :: _ => (delFn filePath e0.FileID, [(filePath, e0.FileID)])

/-- Result of `MoveFile`: either the `LOG_FATAL` path (line 152), or a normal
return carrying the returned error, the `client.HideFile` calls and the
`client.DeleteFile` calls issued. -/
inductive MoveOutcome where
  | fatal : MoveOutcome
  | ret (err : Option String) (hides : List Str) (deletes : List (Str × Str)) : MoveOutcome
deriving DecidableEq, Repr

/-- The un-hide arm of `MoveFile` (lines 159-169). -/
def moveUnhide (listFn : ListFn) (delFn : DelFn) (filePath : Str) : MoveOutcome :=
  match listFn filePath true true with
  | .error e => .ret (some e) [] []
  | .ok entries =>
    match entries with
    | [] => .ret none [] []
    | e0 :: _ =>
      if e0.FileName != filePath || e0.Action != hideAction then .ret none [] []
      else .ret (delFn filePath e0.FileID) [] [(filePath, e0.FileID)]

/-- `B2Storage.MoveFile` (lines 135-170). -/
def MoveFile (listFn : ListFn) (delFn : DelFn) (hideFn : HideFn)
    (from_ to_ : Str) : MoveOutcome :=
  let filePath : Str :=
    if hasSuffix from_ fslSuffix then
      if from_ == to_ ++ fslSuffix then to_ else []
    else if hasSuffix to_ fslSuffix then
      if to_ == from_ ++ fslSuffix then from_ else []
    else []
  if filePath == [] then .fatal
  else if filePath == from_ then
    match hideFn from_ with
    | .error e => .ret (some e) [from_] []
    | .ok _ => .ret none [from_] []
  else moveUnhide listFn delFn filePath

/-- The result quadruple of `GetFileInfo`. -/
structure FileInfo where
  exist : Bool
  isDir : Bool
  size : Int
  err : Option String
deriving DecidableEq, Repr

/-- `B2Storage.GetFileInfo` (lines 178-202). -/
def GetFileInfo (listFn : ListFn) (filePath : Str) : FileInfo :=
  let isFossil := hasSuffix filePath fslSuffix
  let bare := if isFossil then filePath.take (filePath.length - fslSuffix.length) else filePath
  match listFn bare true isFossil with
  | .error e => ⟨false, false, 0, some e⟩
  | .ok entries =>
    match entries with
    | [] => ⟨false, false, 0, none⟩
    | e0 :: _ =>
      if e0.FileName != bare then ⟨false, false, 0, none⟩
      else if isFossil then
        if e0.Action == hideAction then ⟨true, false, e0.Size, none⟩
        else ⟨false, false, 0, none⟩
      else ⟨true, false, e0.Size, none⟩

/-- The configuration the transfer methods read: `storage.DownloadRateLimit`
and `storage.UploadRateLimit()` (inherited from the engine's `StorageBase`,
external to this file) and `storage.client.Threads`. -/
structure B2Storage where
  DownloadRateLimit : Int
  UploadRateLimit : Int
  Threads : Int
deriving DecidableEq, Repr

/-- `B2Storage.DownloadFile` (lines 205-216): call the client's download
oracle, then `RateLimitedCopy` (an external collaborator, passed as an
oracle).  Returns the error result and the list of rate limits passed to
`RateLimitedCopy`.  Go's `/` on `int` is truncated division, `Int.tdiv`. -/
def DownloadFile (downloadFn : Str → Except String Unit)
    (rateLimitedCopy : Int → Except String Int)
    (s : B2Storage) (filePath : Str) : Option String × List Int :=
  match downloadFn filePath with
  | .error e => (some e, [])
  | .ok _ =>
    match rateLimitedCopy (Int.tdiv s.DownloadRateLimit s.Threads) with
    | .error e => (some e, [Int.tdiv s.DownloadRateLimit s.Threads])
    | .ok _ => (none, [Int.tdiv s.DownloadRateLimit s.Threads])

/-- `B2Storage.UploadFile` (lines 219-221): the client's error verbatim,
together with the rate limit passed to `client.UploadFile`. -/
def UploadFile (uploadFn : Str → Int → Option String)
    (s : B2Storage) (filePath : Str) : Option String × List Int :=
  (uploadFn filePath (Int.tdiv s.UploadRateLimit s.Threads),
   [Int.tdiv s.UploadRateLimit s.Threads])

/-- Modelled from the spec's wording of the `chunks` listing branch ("drop
consecutive duplicate names ... for each retained entry" emit name or
name + `.fsl` and the size): the first entry has no predecessor and is always
retained; each later entry is dropped exactly when its name equals the
previous entry's name.  Used to compare the spec's claim with the code's
`chunksList`, whose `lastFile` comparison is seeded with the empty string. -/
def chunksClaimResult (length : Nat) : List B2Entry → List Str × List Int
  | [] => ([], [])
  | e :: rest =>
    let r := chunksList length e.FileName rest
    (chunkEmit length e :: r.1, e.Size :: r.2)

/-- The entries the `chunks` loop retains: those whose name differs from the
previous entry's name, the comparison seeded with the empty string. -/
def retainedChunks (entries : List B2Entry) : List B2Entry :=
  (entries.zip ([] :: entries.map (fun e => e.FileName))).filterMap
    (fun q => if q.1.FileName == q.2 then none else some q.1)

/-! ### Suffix lemmas -/

/-- Appending a suffix makes `hasSuffix` true. -/
theorem hasSuffix_append (p s : Str) : hasSuffix (p ++ s) s = true := by
  have h1 : s.length ≤ (p ++ s).length := by
    simp [List.length_append]
  have h2 : (p ++ s).length - s.length = p.length := by
    simp [List.length_append]
  simp [hasSuffix, h1, h2, List.drop_left]

/-- Stripping the suffix recovers the bare name. -/
theorem take_append_sub (p s : Str) :
    (p ++ s).take ((p ++ s).length - s.length) = p := by
  have h2 : (p ++ s).length - s.length = p.length := by
    simp [List.length_append]
  rw [h2, List.take_left]

/-! ### The fossil-chain loop -/

/-- Once `toBeDeleted` is set, the loop deletes every remaining version with
the exact name (all client deletes succeeding). -/
theorem fossilDeleteLoop_true (p : Str) (l : List B2Entry) :
    fossilDeleteLoop (fun _ _ => none) p true l =
      (none, (l.filter (fun e => e.FileName == p)).map (fun e => (p, e.FileID))) := by
  induction l with
  | nil => rfl
  | cons e rest ih =>
    by_cases he : e.FileName = p
    · simp [fossilDeleteLoop, he, ih]
    · simp [fossilDeleteLoop, he, ih]

/-- Starting with `toBeDeleted = false`, the loop skips everything before the
first hide marker of the exact name and from there deletes every version of
that name (all client deletes succeeding). -/
theorem fossilDeleteLoop_false (p : Str) (l : List B2Entry) :
    fossilDeleteLoop (fun _ _ => none) p false l =
      (none,
        (((l.dropWhile (fun e => !(e.FileName == p && e.Action == hideAction))).filter
            (fun e => e.FileName == p)).map (fun e => (p, e.FileID)))) := by
  induction l with
  | nil => rfl
  | cons e rest ih =>
    rw [List.dropWhile_cons]
    by_cases he : e.FileName = p
    · by_cases ha : e.Action = hideAction
      · simp [fossilDeleteLoop, he, ha, fossilDeleteLoop_true]
      · simp [fossilDeleteLoop, he, ha, ih]
    · simp [fossilDeleteLoop, he, ih]

/-! ### DeleteFile -/

/-- Claim C1: for a fossil path `p ++ ".fsl"`, `DeleteFile` strips the suffix,
enumerates all versions of the bare name newest-first (the single-name,
include-versions listing), leaves every version encountered before the first
hide marker of the exact name untouched, and deletes the first hide marker of
the exact name together with every subsequent version of that same name (the
full fossil chain), with all client deletes succeeding. -/
theorem deleteFile_fossil_chain (listFn : ListFn) (p : Str) (entries : List B2Entry)
    (h : listFn p true true = Except.ok entries) :
    DeleteFile listFn (fun _ _ => none) (p ++ fslSuffix) =
      (none,
        (((entries.dropWhile (fun e => !(e.FileName == p && e.Action == hideAction))).filter
            (fun e => e.FileName == p)).map (fun e => (p, e.FileID)))) := by
  have hs : hasSuffix (p ++ fslSuffix) fslSuffix = true := hasSuffix_append p fslSuffix
  have ht : (p ++ fslSuffix).take ((p ++ fslSuffix).length - fslSuffix.length) = p :=
    take_append_sub p fslSuffix
  simp only [DeleteFile, hs, if_true, ht, h]
  exact fossilDeleteLoop_false p entries

/-- Client response for the C1 witness: a newer active version above a hide
marker above an older active version, all of the same name. -/
def w1Entries : List B2Entry :=
  [⟨['a'], ['v', '3'], ['u', 'p', 'l', 'o', 'a', 'd'], 3⟩,
   ⟨['a'], ['v', '2'], hideAction, 0⟩,
   ⟨['a'], ['v', '1'], ['u', 'p', 'l', 'o', 'a', 'd'], 1⟩]

/-- C1 witness oracle. -/
def w1List : ListFn := fun _ _ _ => Except.ok w1Entries

/-- Witness for C1: deleting `"a.fsl"` deletes the hide marker `v2` and the
older version `v1` beneath it, and leaves the newer active version `v3`
untouched. -/
theorem deleteFile_fossil_chain_witness :
    DeleteFile w1List (fun _ _ => none) (['a'] ++ fslSuffix) =
      (none, [(['a'], ['v', '2']), (['a'], ['v', '1'])]) :=
  (deleteFile_fossil_chain w1List ['a'] w1Entries rfl).trans (by decide)

/-- Claim C2 (amended): for a non-fossil path, `DeleteFile` performs the
single-name listing with hidden versions excluded (the hidden flag is
`false`); on an empty enumeration it returns nil without issuing any delete,
and otherwise issues exactly one delete, on the newest version's ID. -/
theorem deleteFile_normal (listFn : ListFn) (delFn : DelFn) (p : Str)
    (entries : List B2Entry)
    (hns : hasSuffix p fslSuffix = false)
    (h : listFn p true false = Except.ok entries) :
    DeleteFile listFn delFn p =
      match entries with
      | [] => (none, [])
      | e0 :: _ => (delFn p e0.FileID, [(p, e0.FileID)]) := by
  simp only [DeleteFile, hns, Bool.false_eq_true, if_false, h]
  cases entries <;> rfl

/-- Witness for C2: deleting a non-existent name (empty enumeration) is a
silent no-op. -/
theorem deleteFile_normal_witness :
    DeleteFile (fun _ _ _ => Except.ok []) (fun _ _ => none) ['a'] = (none, []) :=
  (deleteFile_normal (fun _ _ _ => Except.ok []) (fun _ _ => none) ['a'] []
    (by decide) rfl).trans (by decide)

/-- Modelled from the spec's wording of the normal delete path ("enumerate
versions of the exact name, active or hidden, newest-first; if none, succeed;
otherwise delete only the single newest version's ID"): the single-name
enumeration is taken with hidden versions included. -/
def deleteFileClaimNormal (listFn : ListFn) (delFn : DelFn) (filePath : Str) :
    Option String × List (Str × Str) :=
  match listFn filePath true true with
  | .error e => (some e, [])
  | .ok entries =>
    match entries with
    | [] => (none, [])
    | e0 :: _ => (delFn filePath e0.FileID, [(filePath, e0.FileID)])

/-- C2 counterexample oracle: the newest version of `"a"` is a hide marker,
so the hidden-inclusive single-name listing returns it while the
hidden-excluded listing returns nothing. -/
def cex2List : ListFn := fun _ _ includeHidden =>
  if includeHidden then Except.ok [⟨['a'], ['v'], hideAction, 0⟩] else Except.ok []

/-- Counterexample to C2 as stated: the claim enumerates `"a"`'s versions
"active or hidden", which is non-empty here (a hide marker), and so demands
exactly one delete on that newest version's ID; the code's normal branch
lists with the hidden flag `false` (line 122), gets an empty enumeration and
issues no delete at all. -/
theorem deleteFile_normal_cex :
    DeleteFile cex2List (fun _ _ => none) ['a'] = (none, []) ∧
    deleteFileClaimNormal cex2List (fun _ _ => none) ['a'] =
      (none, [(['a'], ['v'])]) ∧
    ((none : Option String), ([] : List (Str × Str))) ≠ (none, [(['a'], ['v'])]) := by
  refine ⟨rfl, rfl, by decide⟩

/-- Claim C10: on the non-fossil branch, `DeleteFile` deletes the first entry
of the single-name listing without checking that the entry's name equals the
requested path: here the newest entry is named `"b"` while the path is `"a"`,
and the delete is still issued, on that entry's version ID. -/
theorem deleteFile_no_name_check :
    DeleteFile
      (fun _ _ _ => Except.ok [⟨['b'], ['i', 'd'], ['u', 'p', 'l', 'o', 'a', 'd'], 1⟩])
      (fun _ _ => none) ['a'] =
      (none, [(['a'], ['i', 'd'])]) ∧ (['b'] : Str) ≠ ['a'] := by
  constructor
  · rfl
  · decide

/-! ### ListFiles: chunks branch -/

/-- The chunks loop equals a filter of the entries paired with their
predecessor names (seeded with `lastFile`), mapped through the emission
function. -/
theorem chunksList_eq (length : Nat) (lastFile : Str) (l : List B2Entry) :
    chunksList length lastFile l =
      ((((l.zip (lastFile :: l.map (fun e => e.FileName))).filterMap
          (fun q => if q.1.FileName == q.2 then none else some q.1)).map
            (chunkEmit length)),
       (((l.zip (lastFile :: l.map (fun e => e.FileName))).filterMap
          (fun q => if q.1.FileName == q.2 then none else some q.1)).map
            (fun e => e.Size))) := by
  induction l generalizing lastFile with
  | nil => rfl
  | cons e rest ih =>
    by_cases he : e.FileName = lastFile
    · simp [chunksList, he, ih]
    · simp [chunksList, he, ih]

/-- Claim C3 (amended): on the `chunks` branch, `ListFiles` requests entries
including hidden markers, retains exactly the entries whose name differs from
the previous entry's name — the comparison seeded with the empty string, so a
leading entry with empty name is also dropped — and for each retained entry
emits the prefix-stripped name, with `".fsl"` appended when its action is the
hide marker, together with its size; files and sizes have equal length. -/
theorem listFiles_chunks (listFn : ListFn) (entries : List B2Entry)
    (h : listFn chunksDir false true = Except.ok entries) :
    ListFiles listFn chunksDir =
      Except.ok ((retainedChunks entries).map (chunkEmit (chunksDir.length + 1)),
                 (retainedChunks entries).map (fun e => e.Size)) ∧
    ((retainedChunks entries).map (chunkEmit (chunksDir.length + 1))).length =
      ((retainedChunks entries).map (fun e => e.Size)).length := by
  constructor
  · have hd : stripTrailingSlashes chunksDir = chunksDir := by decide
    have hsn : (chunksDir == snapshotsDir) = false := by decide
    have hck : (chunksDir == chunksDir) = true := by decide
    simp only [ListFiles, hd, hck, hsn, Bool.false_eq_true, if_false, if_true, h]
    rw [chunksList_eq]
    rfl
  · simp

/-- Client response for the C3 witness: two versions of `"chunks/x"` (the
newer one a hide marker) and one active `"chunks/y"`. -/
def w3Entries : List B2Entry :=
  [⟨['c', 'h', 'u', 'n', 'k', 's', '/', 'x'], ['v', '2'], hideAction, 0⟩,
   ⟨['c', 'h', 'u', 'n', 'k', 's', '/', 'x'], ['v', '1'], ['u', 'p', 'l', 'o', 'a', 'd'], 4⟩,
   ⟨['c', 'h', 'u', 'n', 'k', 's', '/', 'y'], ['v', '5'], ['u', 'p', 'l', 'o', 'a', 'd'], 7⟩]

/-- C3 witness oracle. -/
def w3List : ListFn := fun _ _ _ => Except.ok w3Entries

/-- Witness for C3: the duplicate older version of `x` is dropped, the hidden
`x` is emitted as `x.fsl` with the marker's size, `y` is emitted bare. -/
theorem listFiles_chunks_witness :
    ListFiles w3List chunksDir =
      Except.ok ([['x', '.', 'f', 's', 'l'], ['y']], [0, 7]) ∧ (2 : Nat) = 2 :=
  ⟨((listFiles_chunks w3List w3Entries rfl).1).trans (by rfl), rfl⟩

/-- Counterexample to C3 as stated: a response whose first entry has the
empty name.  The claimed walk ("drop consecutive duplicate names") retains
that entry — it has no predecessor — and emits one file with one size, but
the code's loop seeds its comparison with the empty string and drops it,
returning no files at all. -/
theorem listFiles_chunks_cex :
    ListFiles (fun _ _ _ => Except.ok [⟨[], ['i', 'd'], ['u', 'p', 'l', 'o', 'a', 'd'], 5⟩])
        chunksDir = Except.ok ([], []) ∧
    chunksClaimResult (chunksDir.length + 1)
        [⟨[], ['i', 'd'], ['u', 'p', 'l', 'o', 'a', 'd'], 5⟩] = ([[]], [5]) ∧
    (([], []) : List Str × List Int) ≠ ([[]], [5]) := by
  refine ⟨rfl, rfl, by decide⟩

/-! ### ListFiles: snapshots branch -/

/-- Membership in the folded sub-directory set. -/
theorem mem_snapshotFold (length : Nat) (l : List B2Entry) (acc : List Str) (x : Str) :
    x ∈ l.foldl
        (fun acc e =>
          if (snapshotSeg length e) ∈ acc then acc else acc ++ [snapshotSeg length e])
        acc ↔
      x ∈ acc ∨ ∃ e ∈ l, x = snapshotSeg length e := by
  induction l generalizing acc with
  | nil => simp
  | cons e rest ih =>
    simp only [List.foldl_cons]
    rw [ih]
    by_cases hc : (snapshotSeg length e) ∈ acc
    · rw [if_pos hc]
      constructor
      · rintro (hx | ⟨e', he', hx⟩)
        · exact Or.inl hx
        · exact Or.inr ⟨e', List.mem_cons_of_mem e he', hx⟩
      · rintro (hx | ⟨e', he', hx⟩)
        · exact Or.inl hx
        · rcases List.mem_cons.mp he' with rfl | he''
          · exact Or.inl (hx ▸ hc)
          · exact Or.inr ⟨e', he'', hx⟩
    · rw [if_neg hc]
      constructor
      · rintro (hx | ⟨e', he', hx⟩)
        · rcases List.mem_append.mp hx with hx' | hx'
          · exact Or.inl hx'
          · exact Or.inr ⟨e, List.mem_cons_self e rest, List.mem_singleton.mp hx'⟩
        · exact Or.inr ⟨e', List.mem_cons_of_mem e he', hx⟩
      · rintro (hx | ⟨e', he', hx⟩)
        · exact Or.inl (List.mem_append.mpr (Or.inl hx))
        · rcases List.mem_cons.mp he' with rfl | he''
          · exact Or.inl (List.mem_append.mpr (Or.inr (by simp [hx])))
          · exact Or.inr ⟨e', he'', hx⟩

/-- Membership in `snapshotSubDirs`. -/
theorem mem_snapshotSubDirs (length : Nat) (entries : List B2Entry) (x : Str) :
    x ∈ snapshotSubDirs length entries ↔ ∃ e ∈ entries, x = snapshotSeg length e := by
  rw [snapshotSubDirs, mem_snapshotFold]
  simp

/-- C7 example oracle: keys `snapshots/1/a`, `snapshots/1/b`, `snapshots/2/c`. -/
def ex7List : ListFn := fun _ _ _ => Except.ok
  [⟨['s', 'n', 'a', 'p', 's', 'h', 'o', 't', 's', '/', '1', '/', 'a'], ['v', '1'],
      ['u', 'p', 'l', 'o', 'a', 'd'], 1⟩,
   ⟨['s', 'n', 'a', 'p', 's', 'h', 'o', 't', 's', '/', '1', '/', 'b'], ['v', '2'],
      ['u', 'p', 'l', 'o', 'a', 'd'], 2⟩,
   ⟨['s', 'n', 'a', 'p', 's', 'h', 'o', 't', 's', '/', '2', '/', 'c'], ['v', '3'],
      ['u', 'p', 'l', 'o', 'a', 'd'], 3⟩]

/-- Claim C7: on the `snapshots` branch, `ListFiles` uses the listing without
hidden-only entries and returns exactly the deduplicated set of first path
segments after the prefix, each suffixed with `/` (set semantics); in
particular the keys `snapshots/1/a`, `snapshots/1/b`, `snapshots/2/c` yield
exactly the set `{"1/", "2/"}`. -/
theorem listFiles_snapshots (listFn : ListFn) (entries : List B2Entry)
    (h : listFn snapshotsDir false false = Except.ok entries) :
    (ListFiles listFn snapshotsDir =
      Except.ok (snapshotSubDirs (snapshotsDir.length + 1) entries, []) ∧
     ∀ x, x ∈ snapshotSubDirs (snapshotsDir.length + 1) entries ↔
       ∃ e ∈ entries, x = snapshotSeg (snapshotsDir.length + 1) e) ∧
    (ListFiles ex7List snapshotsDir = Except.ok ([['1', '/'], ['2', '/']], []) ∧
     ∀ x, x ∈ [(['1', '/'] : Str), ['2', '/']] ↔ x = ['1', '/'] ∨ x = ['2', '/']) := by
  refine ⟨⟨?_, fun x => mem_snapshotSubDirs _ entries x⟩, by rfl, fun x => by simp⟩
  have hd : stripTrailingSlashes snapshotsDir = snapshotsDir := by decide
  have hck : (snapshotsDir == chunksDir) = false := by decide
  have hsn : (snapshotsDir == snapshotsDir) = true := by decide
  simp only [ListFiles, hd, hck, Bool.false_eq_true, if_false, h, hsn, if_true]

/-- Witness for C7 at the example oracle itself. -/
theorem listFiles_snapshots_witness :
    ListFiles ex7List snapshotsDir = Except.ok ([['1', '/'], ['2', '/']], []) :=
  ((listFiles_snapshots ex7List
      [⟨['s', 'n', 'a', 'p', 's', 'h', 'o', 't', 's', '/', '1', '/', 'a'], ['v', '1'],
          ['u', 'p', 'l', 'o', 'a', 'd'], 1⟩,
       ⟨['s', 'n', 'a', 'p', 's', 'h', 'o', 't', 's', '/', '1', '/', 'b'], ['v', '2'],
          ['u', 'p', 'l', 'o', 'a', 'd'], 2⟩,
       ⟨['s', 'n', 'a', 'p', 's', 'h', 'o', 't', 's', '/', '2', '/', 'c'], ['v', '3'],
          ['u', 'p', 'l', 'o', 'a', 'd'], 3⟩] rfl).2).1

/-! ### ListFiles: sizes outside the chunks branch -/

/-- Claim C9: whenever the normalized directory is not `"chunks"`, a
successful `ListFiles` returns an empty sizes slice (sizes are populated only
on the chunks branch). -/
theorem listFiles_sizes_nil (listFn : ListFn) (dir : Str)
    (files : List Str) (sizes : List Int)
    (hdir : stripTrailingSlashes dir ≠ chunksDir)
    (h : ListFiles listFn dir = Except.ok (files, sizes)) :
    sizes = [] := by
  have hck : (stripTrailingSlashes dir == chunksDir) = false :=
    beq_eq_false_iff_ne.mpr hdir
  simp only [ListFiles, hck, Bool.false_eq_true, if_false] at h
  split at h
  · exact absurd h (by simp)
  · split at h
    · exact ((Prod.ext_iff.mp (Except.ok.inj h)).2).symm
    · exact ((Prod.ext_iff.mp (Except.ok.inj h)).2).symm

/-- C9 witness oracle: one snapshot key. -/
def w9List : ListFn := fun _ _ _ => Except.ok
  [⟨['s', 'n', 'a', 'p', 's', 'h', 'o', 't', 's', '/', '1', '/', 'a'], ['v', '1'],
      ['u', 'p', 'l', 'o', 'a', 'd'], 1⟩]

/-- Witness for C9: listing `snapshots` yields a non-empty files slice with
an empty sizes slice. -/
theorem listFiles_sizes_nil_witness :
    ListFiles w9List snapshotsDir = Except.ok ([['1', '/']], []) ∧ ([] : List Int) = [] :=
  ⟨by rfl, listFiles_sizes_nil w9List snapshotsDir [['1', '/']] [] (by decide) (by rfl)⟩

/-! ### MoveFile -/

/-- A string never equals itself with the fossil suffix appended. -/
theorem self_beq_append_fsl (l : Str) : (l == l ++ fslSuffix) = false := by
  refine beq_eq_false_iff_ne.mpr (fun h => ?_)
  have := congrArg List.length h
  simp [fslSuffix] at this

/-- The hide arm of the dispatch: `from` not itself a fossil name, nonempty,
and `to = from ++ ".fsl"`. -/
theorem moveFile_hide_eq (listFn : ListFn) (delFn : DelFn) (hideFn : HideFn)
    (from_ : Str) (hA : hasSuffix from_ fslSuffix = false) (hne : from_ ≠ []) :
    MoveFile listFn delFn hideFn from_ (from_ ++ fslSuffix) =
      match hideFn from_ with
      | .error e => .ret (some e) [from_] []
      | .ok _ => .ret none [from_] [] := by
  have h1 : hasSuffix (from_ ++ fslSuffix) fslSuffix = true := hasSuffix_append _ _
  have h2 : (from_ == ([] : Str)) = false := beq_eq_false_iff_ne.mpr hne
  simp only [MoveFile, hA, Bool.false_eq_true, if_false, h1, if_true, beq_self_eq_true,
    h2]

/-- The un-hide arm of the dispatch: `from = to ++ ".fsl"` with `to`
nonempty. -/
theorem moveFile_unhide_eq (listFn : ListFn) (delFn : DelFn) (hideFn : HideFn)
    (to_ : Str) (hne : to_ ≠ []) :
    MoveFile listFn delFn hideFn (to_ ++ fslSuffix) to_ = moveUnhide listFn delFn to_ := by
  have h1 : hasSuffix (to_ ++ fslSuffix) fslSuffix = true := hasSuffix_append _ _
  have h2 : (to_ == ([] : Str)) = false := beq_eq_false_iff_ne.mpr hne
  have h3 : (to_ == to_ ++ fslSuffix) = false := self_beq_append_fsl to_
  simp only [MoveFile, h1, if_true, beq_self_eq_true, h2, Bool.false_eq_true, if_false,
    h3]

/-- Every other pair takes the fatal path. -/
theorem moveFile_fatal_eq (listFn : ListFn) (delFn : DelFn) (hideFn : HideFn)
    (from_ to_ : Str)
    (hn1 : ¬(hasSuffix from_ fslSuffix = false ∧ from_ ≠ [] ∧ to_ = from_ ++ fslSuffix))
    (hn2 : ¬(from_ = to_ ++ fslSuffix ∧ to_ ≠ [])) :
    MoveFile listFn delFn hideFn from_ to_ = MoveOutcome.fatal := by
  cases hA : hasSuffix from_ fslSuffix with
  | true =>
    by_cases hE : from_ = to_ ++ fslSuffix
    · have hto : to_ = [] := by
        by_contra hc
        exact hn2 ⟨hE, hc⟩
      subst hto
      have hb : (from_ == ([] : Str) ++ fslSuffix) = true := beq_iff_eq.mpr hE
      simp only [MoveFile, hA, if_true, hb, beq_self_eq_true]
    · have hb : (from_ == to_ ++ fslSuffix) = false := beq_eq_false_iff_ne.mpr hE
      simp only [MoveFile, hA, if_true, hb, Bool.false_eq_true, if_false,
        beq_self_eq_true]
  | false =>
    cases hB : hasSuffix to_ fslSuffix with
    | true =>
      by_cases hE2 : to_ = from_ ++ fslSuffix
      · have hfe : from_ = [] := by
          by_contra hc
          exact hn1 ⟨hA, hc, hE2⟩
        subst hfe
        have hb : (to_ == ([] : Str) ++ fslSuffix) = true := beq_iff_eq.mpr hE2
        simp only [MoveFile, hA, Bool.false_eq_true, if_false, hB, if_true, hb,
          beq_self_eq_true]
      · have hb : (to_ == from_ ++ fslSuffix) = false := beq_eq_false_iff_ne.mpr hE2
        simp only [MoveFile, hA, Bool.false_eq_true, if_false, hB, if_true, hb,
          beq_self_eq_true]
    | false =>
      simp only [MoveFile, hA, Bool.false_eq_true, if_false, hB, beq_self_eq_true,
        if_true]

/-- Claim C4 (amended): if `from` does not itself end in `".fsl"`, is
nonempty, and `to == from ++ ".fsl"`, `MoveFile` issues a hide operation on
`from` (no deletes); if `from == to ++ ".fsl"` and `to` is nonempty, it
performs the un-hide transformation; and for every other pair it takes the
fatal / contract-violation path rather than returning a normal error
value. -/
theorem moveFile_dispatch (listFn : ListFn) (delFn : DelFn) (hideFn : HideFn)
    (from_ to_ : Str) :
    (hasSuffix from_ fslSuffix = false → from_ ≠ [] → to_ = from_ ++ fslSuffix →
      MoveFile listFn delFn hideFn from_ to_ =
        match hideFn from_ with
        | .error e => .ret (some e) [from_] []
        | .ok _ => .ret none [from_] []) ∧
    (from_ = to_ ++ fslSuffix → to_ ≠ [] →
      MoveFile listFn delFn hideFn from_ to_ = moveUnhide listFn delFn to_) ∧
    (¬(hasSuffix from_ fslSuffix = false ∧ from_ ≠ [] ∧ to_ = from_ ++ fslSuffix) →
     ¬(from_ = to_ ++ fslSuffix ∧ to_ ≠ []) →
      MoveFile listFn delFn hideFn from_ to_ = MoveOutcome.fatal) := by
  refine ⟨?_, ?_, moveFile_fatal_eq listFn delFn hideFn from_ to_⟩
  · intro hA hne hto
    subst hto
    exact moveFile_hide_eq listFn delFn hideFn from_ hA hne
  · intro hfrom hne
    subst hfrom
    exact moveFile_unhide_eq listFn delFn hideFn to_ hne

/-- Counterexample to C4 as stated: for `from = "a.fsl"`,
`to = "a.fsl.fsl"` we have `to == from + ".fsl"`, yet `MoveFile` takes the
fatal path instead of issuing a hide on `from` — the `from`-side suffix check
wins and its `from == to + ".fsl"` verification fails. -/
theorem moveFile_dispatch_cex :
    MoveFile (fun _ _ _ => Except.ok []) (fun _ _ => none) (fun _ => Except.ok [])
        ['a', '.', 'f', 's', 'l'] ['a', '.', 'f', 's', 'l', '.', 'f', 's', 'l'] =
      MoveOutcome.fatal ∧
    (['a', '.', 'f', 's', 'l', '.', 'f', 's', 'l'] : Str) =
      ['a', '.', 'f', 's', 'l'] ++ fslSuffix ∧
    MoveOutcome.fatal ≠ MoveOutcome.ret none [['a', '.', 'f', 's', 'l']] [] := by
  refine ⟨rfl, by decide, by decide⟩

/-- C4 witness hide oracle. -/
def w4Hide : HideFn := fun _ => Except.ok ['v']

/-- Witness for C4 (hide arm): moving `"a"` to `"a.fsl"` issues exactly one
hide call, on `"a"`. -/
theorem moveFile_dispatch_witness :
    MoveFile (fun _ _ _ => Except.ok []) (fun _ _ => none) w4Hide
        ['a'] (['a'] ++ fslSuffix) = MoveOutcome.ret none [['a']] [] :=
  ((moveFile_dispatch (fun _ _ _ => Except.ok []) (fun _ _ => none) w4Hide
      ['a'] (['a'] ++ fslSuffix)).1 (by decide) (by decide) rfl).trans (by rfl)

/-- Claim C5 (amended): for every nonempty name `n`, un-hiding via
`MoveFile (n ++ ".fsl") n` looks up the newest version of `n` in the
single-name include-versions listing; if the result is empty, or the newest
entry's name differs from `n`, or its action is not the hide marker, it
returns nil without issuing any delete; otherwise it deletes exactly that
hidden version's ID. -/
theorem moveFile_unhide_spec (listFn : ListFn) (delFn : DelFn) (hideFn : HideFn)
    (n : Str) (entries : List B2Entry)
    (hn : n ≠ [])
    (h : listFn n true true = Except.ok entries) :
    MoveFile listFn delFn hideFn (n ++ fslSuffix) n =
      match entries with
      | [] => MoveOutcome.ret none [] []
      | e0 :: _ =>
        if e0.FileName != n || e0.Action != hideAction then MoveOutcome.ret none [] []
        else MoveOutcome.ret (delFn n e0.FileID) [] [(n, e0.FileID)] := by
  rw [moveFile_unhide_eq listFn delFn hideFn n hn]
  simp only [moveUnhide, h]
  cases entries <;> rfl

/-- Counterexample to C5 as stated: for `n = ""`, `MoveFile(".fsl", "")`
takes the fatal path — it neither returns nil nor issues a delete. -/
theorem moveFile_unhide_cex :
    MoveFile (fun _ _ _ => Except.ok []) (fun _ _ => none) (fun _ => Except.ok [])
        fslSuffix [] = MoveOutcome.fatal ∧
    (fslSuffix : Str) = [] ++ fslSuffix ∧
    MoveOutcome.fatal ≠ MoveOutcome.ret none [] [] := by
  refine ⟨rfl, by decide, by decide⟩

/-- C5 witness oracle: the newest version of `"a"` is a hide marker. -/
def w5List : ListFn := fun _ _ _ => Except.ok [⟨['a'], ['v'], hideAction, 0⟩]

/-- Witness for C5: un-hiding `"a"` deletes exactly the hide marker's
version. -/
theorem moveFile_unhide_spec_witness :
    MoveFile w5List (fun _ _ => none) (fun _ => Except.ok []) (['a'] ++ fslSuffix) ['a'] =
      MoveOutcome.ret none [] [(['a'], ['v'])] :=
  (moveFile_unhide_spec w5List (fun _ _ => none) (fun _ => Except.ok []) ['a']
      [⟨['a'], ['v'], hideAction, 0⟩] (by decide) rfl).trans (by rfl)

/-! ### GetFileInfo -/

/-- Claim C6: `GetFileInfo` reports `isDir = false` in every case; and on a
fossil path `q ++ ".fsl"` it strips the suffix, queries the newest version
with the hidden flag set, and reports existence with that version's size
exactly when the newest entry's name is exactly `q` and its action is the
hide marker, reporting `exists = false` with size `0` otherwise. -/
theorem getFileInfo_spec (listFn : ListFn) (p q : Str) (entries : List B2Entry)
    (h : listFn q true true = Except.ok entries) :
    (GetFileInfo listFn p).isDir = false ∧
    GetFileInfo listFn (q ++ fslSuffix) =
      (match entries with
       | [] => ⟨false, false, 0, none⟩
       | e0 :: _ =>
         if e0.FileName != q then ⟨false, false, 0, none⟩
         else if e0.Action == hideAction then ⟨true, false, e0.Size, none⟩
         else ⟨false, false, 0, none⟩) := by
  constructor
  · dsimp only [GetFileInfo]
    repeat
      first
      | rfl
      | (split <;> try rfl)
  · have hs : hasSuffix (q ++ fslSuffix) fslSuffix = true := hasSuffix_append q fslSuffix
    have ht : (q ++ fslSuffix).take ((q ++ fslSuffix).length - fslSuffix.length) = q :=
      take_append_sub q fslSuffix
    simp only [GetFileInfo, hs, if_true, ht, h]
    cases entries <;> rfl

/-- C6 witness oracle: the newest version of `"a"` is a hide marker of size
9. -/
def w6List : ListFn := fun _ _ _ => Except.ok [⟨['a'], ['v'], hideAction, 9⟩]

/-- Witness for C6: stat of a fossil whose newest version is a matching hide
marker reports existence with the marker's size, and `isDir` is false. -/
theorem getFileInfo_spec_witness :
    (GetFileInfo w6List ['z']).isDir = false ∧
    GetFileInfo w6List (['a'] ++ fslSuffix) = ⟨true, false, 9, none⟩ :=
  ⟨(getFileInfo_spec w6List ['z'] ['a'] [⟨['a'], ['v'], hideAction, 9⟩] rfl).1,
   ((getFileInfo_spec w6List ['z'] ['a'] [⟨['a'], ['v'], hideAction, 9⟩] rfl).2).trans
     (by rfl)⟩

/-! ### Transfer rate limits -/

/-- Claim C8: the rate limit passed to the rate-limited copy on download and
to the client's upload equals the configured global limit divided (truncated
integer division, Go `/`) by the client's thread count, and both operations
return the external client's error verbatim on failure. -/
theorem transfer_rate_limits (downloadFn : Str → Except String Unit)
    (rateLimitedCopy : Int → Except String Int)
    (uploadFn : Str → Int → Option String) (s : B2Storage) (p : Str) :
    (∀ e, downloadFn p = Except.error e →
      DownloadFile downloadFn rateLimitedCopy s p = (some e, [])) ∧
    (downloadFn p = Except.ok () →
      (DownloadFile downloadFn rateLimitedCopy s p).2 =
          [Int.tdiv s.DownloadRateLimit s.Threads] ∧
      (DownloadFile downloadFn rateLimitedCopy s p).1 =
        (match rateLimitedCopy (Int.tdiv s.DownloadRateLimit s.Threads) with
         | .error e => some e
         | .ok _ => none)) ∧
    UploadFile uploadFn s p =
      (uploadFn p (Int.tdiv s.UploadRateLimit s.Threads),
       [Int.tdiv s.UploadRateLimit s.Threads]) := by
  refine ⟨?_, ?_, rfl⟩
  · intro e he
    simp [DownloadFile, he]
  · intro hok
    constructor
    · simp only [DownloadFile, hok]
      cases hc : rateLimitedCopy (Int.tdiv s.DownloadRateLimit s.Threads) <;> rfl
    · simp only [DownloadFile, hok]
      cases hc : rateLimitedCopy (Int.tdiv s.DownloadRateLimit s.Threads) <;> rfl

/-- C8 witness configuration: limits 100 and 70, four threads. -/
def w8Storage : B2Storage := ⟨100, 70, 4⟩

/-- Witness for C8: with download limit 100, upload limit 70 and 4 threads
the per-operation limits are 25 and 17. -/
theorem transfer_rate_limits_witness :
    (DownloadFile (fun _ => Except.ok ()) (fun _ => Except.ok 0) w8Storage ['a']).2 =
      [25] ∧
    UploadFile (fun _ _ => none) w8Storage ['a'] = (none, [17]) :=
  ⟨(((transfer_rate_limits (fun _ => Except.ok ()) (fun _ => Except.ok 0)
        (fun _ _ => none) w8Storage ['a']).2.1 rfl).1).trans (by decide),
   ((transfer_rate_limits (fun _ => Except.ok ()) (fun _ => Except.ok 0)
        (fun _ _ => none) w8Storage ['a']).2.2).trans (by rfl)⟩

end B2
